import Mathlib

/-!
Verification development for the `unmeg/audio-classifier` repository.

The repository has two executable parts:

* `data/generate_pesq_dataset.py`: an offline pipeline that degrades
  high-resolution 16 kHz audio patches (decimation to several sample rates,
  spline upsampling back to the original grid, optional synthetic crackle
  noise), scores each degraded version with the external PESQ tool against
  a reference, and assembles an HDF5 dataset with datasets `x` (audio) and
  `y` (quantized scores).
* `net_evaluator.py`: a thin training/evaluation loop (`NetEvaluator`)
  over a PyTorch network, with train/test dataloaders, a per-epoch
  train-then-test cycle and checkpointing.

The shallow embedding below models audio signals as `List ℚ`.  Operations
performed by external libraries whose numeric results the program merely
transports (the cubic-spline fit/evaluation of `scipy.interpolate`, the
PESQ scorer, the random noise draws, `torch.randperm`, and the predictions
of the network) are taken as oracle parameters; everything the own code of
the repository does with those results (indexing, looping, accumulation,
quantization, dataset assembly, the dataloader split, the epoch loop) is
embedded directly from the source.  Writing a signal to a temporary WAV
file and scoring that file is modelled as scoring the signal itself: the
content of the file is a function of the signal, so an oracle on signals
is the composition of the write with an oracle on files.
-/

namespace AudioClassifier

/-! ## `data/generate_pesq_dataset.py` -/

/-- Module-level constant `num_classes = 50`. -/
def num_classes : ℚ := 50

/-- Module-level constant `pesq_sr = 16000`. -/
def pesq_sr : ℕ := 16000

/-- Round a rational to the nearest integer, ties to even: the idealized
semantics of the Python built-in `round` on one argument. -/
def roundHalfEven (x : ℚ) : ℤ :=
  let f : ℤ := ⌊x⌋
  let frac : ℚ := x - f
  if frac < 1/2 then f
  else if 1/2 < frac then f + 1
  else if f % 2 = 0 then f else f + 1

/-- Python `round(x, 1)`: round to one decimal place, ties to even. -/
def pyRound1 (x : ℚ) : ℚ := (roundHalfEven (x * 10) : ℚ) / 10

/-- Source: `score2index(score) = round(score, 1) * (num_classes / 5)`. -/
def score2index (score : ℚ) : ℚ := pyRound1 score * (num_classes / 5)

/-- Function `index2score` from the source.  Its body is
`return (i / (num_classes / 5))`: the name `i` is NOT the parameter
(which is called `index`) but the module-level global `i` left over from
the scoring loop, so the value of the function ignores its argument.  The
global binding of `i` is passed here as the explicit first argument
`globalI`. -/
def index2score (globalI : ℚ) (index : ℚ) : ℚ := globalI / (num_classes / 5)

/-- Source `encode_score(score)`: a one-hot vector of length `num_classes` with a
`1` at position `int(score2index(score))` (all zeros when the index is 0). -/
def encode_score (score : ℚ) : List ℚ :=
  let i : ℚ := score2index score
  if i ≠ 0 then
    (List.range 50).map (fun j => if (j : ℚ) = ⌊i⌋ then 1 else 0)
  else
    List.replicate 50 0

/-- Python `x[::r]` for a positive step `r`: the entries at indices
`0, r, 2r, …`; its length is `⌈len x / r⌉ = (len x + r - 1) / r`. -/
def decimate (r : ℕ) (x : List ℚ) : List ℚ :=
  (List.range ((x.length + r - 1) / r)).map (fun i => x.getD (i * r) 0)

/-- Source `upsample(x_lr, d, r)`: build the spline through the knots
`(0, r, 2r, …)` with values `x_lr` (`splrep`), then evaluate its `d`-th
derivative at every integer point of `arange(len(x_lr) * r)` (`splev`).
The spline fit/evaluation itself is the oracle `spline d r x_lr t`
(derivative order, knot spacing, knot values, evaluation point); `splev`
returns one value per evaluation point, so the result has length
`len x_lr * r`. -/
def upsample (spline : ℕ → ℕ → List ℚ → ℕ → ℚ) (x_lr : List ℚ) (d r : ℕ) :
    List ℚ :=
  (List.range (x_lr.length * r)).map (spline d r x_lr)

/-- The synthetic "cracking" noise of `resample`: a random vector the same
length as the signal is added elementwise (`resampled += r`).  The drawn
vector is the oracle `nf : ℕ → ℚ` giving the addend at each index. -/
def addNoise (nf : ℕ → ℚ) (xs : List ℚ) : List ℚ :=
  List.zipWith (fun v i => v + nf i) xs (List.range xs.length)

/-- Source `resample(x, original_sr, new_sr, filename, noise)`, audio part:
`r = original_sr // new_sr`; decimate by `r`; spline-upsample by `r`; add
the noise vector when `noise` is set.  The file written by `sf.write` is
identified with the returned signal. -/
def resampleAudio (spline : ℕ → ℕ → List ℚ → ℕ → ℚ) (nf : ℕ → ℚ)
    (x : List ℚ) (original_sr new_sr : ℕ) (noise : Bool) : List ℚ :=
  let r := original_sr / new_sr
  let resampled := decimate r x
  let resampled := upsample spline resampled 0 r
  if noise then addNoise nf resampled else resampled

/-- One degraded version of a patch: its target sample rate, whether noise
was added, and the audio `resample` returned (the content of the temp
file). -/
structure Degraded where
  sr : ℕ
  noise : Bool
  audio : List ℚ
  deriving DecidableEq, Repr

instance : Inhabited Degraded := ⟨⟨0, false, []⟩⟩

/-- Source: `sampling_rates = [16000, 8000, 4000, 2000, 1000]`. -/
def sampling_rates : List ℕ := [16000, 8000, 4000, 2000, 1000]

/-- The degradation loop: for each sample rate, append the noise-free and
then the noisy resampled version of the patch `x` (`degraded_x` in the
source).  `nf sr noise` is the noise vector drawn for that call. -/
def degradedVersions (spline : ℕ → ℕ → List ℚ → ℕ → ℚ)
    (nf : ℕ → Bool → ℕ → ℚ) (x : List ℚ) : List Degraded :=
  sampling_rates.flatMap (fun sr =>
    [⟨sr, false, resampleAudio spline (nf sr false) x 16000 sr false⟩,
     ⟨sr, true, resampleAudio spline (nf sr true) x 16000 sr true⟩])

/-- The body of the scoring loop at index `i`, acting on the accumulator
`(scores-so-far, patches-so-far)`:
`score = get_pesq(degraded_x[0][0], degraded_x[i][0])` may fail (`pesq`
returns `none`); on success `these_scores.append(score2index(score))` and
`patches.append(np.append(degraded_x[0][1], degraded_x[-1][1]))`
(`np.append` of two 1-D arrays is concatenation); on failure nothing is
appended. -/
def scoreStep (pesq : List ℚ → List ℚ → Option ℚ) (degs : List Degraded)
    (acc : List ℚ × List (List ℚ)) (i : ℕ) : List ℚ × List (List ℚ) :=
  match pesq ((degs.headD default).audio) ((degs.getD i default).audio) with
  | some score =>
      (acc.1 ++ [score2index score],
       acc.2 ++ [(degs.headD default).audio ++
                   ((degs.getLast?).getD default).audio])
  | none => acc

/-- The scoring loop `for i in range(len(degraded_x))` over the degraded
versions of one patch. -/
def scoreLoop (pesq : List ℚ → List ℚ → Option ℚ) (degs : List Degraded)
    (acc : List ℚ × List (List ℚ)) : List ℚ × List (List ℚ) :=
  (List.range degs.length).foldl (scoreStep pesq degs) acc

/-- One iteration of the outer loop over shuffled patch indices: build the
ten degraded versions of the patch, then run the scoring loop, extending
the global `scores`/`patches` accumulators (`scores += these_scores` and
the in-loop `patches.append`). -/
def processPatch (pesq : List ℚ → List ℚ → Option ℚ)
    (spline : ℕ → ℕ → List ℚ → ℕ → ℚ) (nf : ℕ → Bool → ℕ → ℚ)
    (acc : List ℚ × List (List ℚ)) (x : List ℚ) : List ℚ × List (List ℚ) :=
  scoreLoop pesq (degradedVersions spline nf x) acc

/-- The whole generation pipeline on the patches in their shuffled
processing order (the shuffle only permutes which patch is handled when):
a sequential fold of `processPatch` starting from empty `scores` and
`patches`.  Its first component becomes the HDF5 dataset `y` (after
`np.int32` conversion, a shape change only on these values) and its second
the dataset `x` (after `expand_dims`, a shape change only). -/
def pipeline (pesq : List ℚ → List ℚ → Option ℚ)
    (spline : ℕ → ℕ → List ℚ → ℕ → ℚ) (nf : ℕ → Bool → ℕ → ℚ)
    (patches : List (List ℚ)) : List ℚ × List (List ℚ) :=
  patches.foldl (processPatch pesq spline nf) ([], [])

/-! ## `net_evaluator.py` -/

/-- A `torch.utils.data.DataLoader` over a fixed dataset, as far as the
repository observes it: the index sequence its sampler yields (a
`SubsetRandomSampler` over the given index list; the sampler shuffle is
folded into the order of `idxs`) and the batch size it groups them by. -/
structure DataLoader where
  idxs : List ℕ
  batch_size : ℕ
  deriving DecidableEq, Repr

/-- The `NetEvaluator` object state touched by the claims: the dataset
(list of `(x, y)` pairs with integer class labels), the constructor
arguments `__init__` stores, and the two dataloaders built by
`generate_dataloaders`. -/
structure NetEvaluator where
  dataset : List (List ℚ × ℤ)
  test_percent : ℚ
  learning_rate : ℚ
  starting_epoch : ℕ
  num_epochs : ℕ
  checkpoint_every_epochs : ℕ
  test_threshold : ℚ
  batch_size : ℕ
  train_dl : DataLoader
  test_dl : DataLoader
  deriving DecidableEq

/-- Method `generate_dataloaders`:
`rand_idxs = torch.randperm(len(self.dataset))` (the drawn permutation is
the oracle argument `randperm`);
`test_size = int(np.floor(len(self.dataset) * self.test_percent))`;
`test_idxs = rand_idxs[:test_size]`, `train_idxs = rand_idxs[test_size:]`;
both dataloaders are built over `self.dataset` with
`batch_size=self.batch_size`. -/
def generate_dataloaders (e : NetEvaluator) (randperm : List ℕ) :
    NetEvaluator :=
  let test_size : ℕ := (⌊(e.dataset.length : ℚ) * e.test_percent⌋).toNat
  let test_idxs := randperm.take test_size
  let train_idxs := randperm.drop test_size
  { e with
    train_dl := ⟨train_idxs, e.batch_size⟩,
    test_dl := ⟨test_idxs, e.batch_size⟩ }

/-- Constructor `NetEvaluator.__init__` restricted to the state above.  It stores the
`dataset`, `test_percent`, `learning_rate`, `starting_epoch`,
`num_epochs`, `test_threshold`, `checkpoint_every_epochs` arguments, sets
`self.batch_size = 512` (the literal `512`, NOT the `batch_size`
parameter, which is read nowhere), and calls `generate_dataloaders`. -/
def mkNetEvaluator (dataset : List (List ℚ × ℤ)) (test_percent : ℚ)
    (learning_rate : ℚ) (starting_epoch num_epochs : ℕ)
    (checkpoint_every_epochs : ℕ) (test_threshold : ℚ)
    (batch_size : ℕ) (randperm : List ℕ) : NetEvaluator :=
  generate_dataloaders
    { dataset := dataset
      test_percent := test_percent
      learning_rate := learning_rate
      starting_epoch := starting_epoch
      num_epochs := num_epochs
      checkpoint_every_epochs := checkpoint_every_epochs
      test_threshold := test_threshold
      batch_size := 512
      train_dl := ⟨[], 512⟩
      test_dl := ⟨[], 512⟩ } randperm

/-- The accuracy computation of `NetEvaluator.test` as a function of the
index sequence iterated: for each sample, `total += y.size(0)` counts it
and `correct` counts `abs(predicted - y) <= self.test_threshold`; the
result is `100 * correct / total`.  Batching only partitions the same sum,
so the iteration is modelled sample by sample.  `predict x` is the argmax
class the network outputs for input `x` (oracle). -/
def accuracyOver (e : NetEvaluator) (predict : List ℚ → ℤ)
    (idxs : List ℕ) : ℚ :=
  let step := fun (ct : ℕ × ℕ) (i : ℕ) =>
    let xy := e.dataset.getD i ([], 0)
    (ct.1 + (if (|predict xy.1 - xy.2| : ℚ) ≤ e.test_threshold then 1 else 0),
     ct.2 + 1)
  let ct := idxs.foldl step (0, 0)
  100 * (ct.1 : ℚ) / (ct.2 : ℚ)

/-- Method `NetEvaluator.test`: its loop header is `for x, y in self.train_dl:`
— it iterates the indices of the TRAIN dataloader. -/
def NetEvaluator.test (e : NetEvaluator) (predict : List ℚ → ℤ) : ℚ :=
  accuracyOver e predict e.train_dl.idxs

/-- The externally visible actions of one epoch of `NetEvaluator.eval`:
the training pass, the evaluation pass, the `best_model.pkl` save when a
new best accuracy is reached, and the checkpoint-file save
(`torch.save` of `save_state` to the per-epoch checkpoint .pt path). -/
inductive Event where
  | trainPass (epoch : ℕ)
  | testPass (epoch : ℕ)
  | saveBestModel (epoch : ℕ)
  | saveCheckpoint (epoch : ℕ)
  deriving DecidableEq, Repr

/-- One iteration of the epoch loop of `NetEvaluator.eval` (no
`KeyboardInterrupt`): run `self.train()`, run `self.test()`, save
`best_model.pkl` if `accuracy > best_accuracy` (updating the best), and
save a checkpoint file iff
`(epoch % self.checkpoint_every_epochs == 0 or epoch == self.num_epochs-1)
and (epoch != self.starting_epoch)`.  `acc epoch` is the accuracy
`self.test()` returns at that epoch (oracle); the carried state is
`best_accuracy`. -/
def evalEpoch (e : NetEvaluator) (acc : ℕ → ℚ) (best : ℚ) (epoch : ℕ) :
    ℚ × List Event :=
  let events := [Event.trainPass epoch, Event.testPass epoch]
  let best' := if acc epoch > best then acc epoch else best
  let events := events ++
    (if acc epoch > best then [Event.saveBestModel epoch] else [])
  let events := events ++
    (if (epoch % e.checkpoint_every_epochs = 0 ∨ epoch = e.num_epochs - 1)
        ∧ epoch ≠ e.starting_epoch
     then [Event.saveCheckpoint epoch] else [])
  (best', events)

/-- One fold step of the epoch loop of `eval`: thread `best_accuracy` and
append the events of this epoch to the log. -/
def evalStep (e : NetEvaluator) (acc : ℕ → ℚ) (st : ℚ × List Event)
    (epoch : ℕ) : ℚ × List Event :=
  let r := evalEpoch e acc st.1 epoch
  (r.1, st.2 ++ r.2)

/-- Method `NetEvaluator.eval`: the epoch loop
`for epoch in range(self.starting_epoch, self.num_epochs):` emitting the
events of every iteration in order, starting from `best_accuracy = 0`.
Python `range(a, b)` is `List.range' a (b - a)`. -/
def evalTrace (e : NetEvaluator) (acc : ℕ → ℚ) : List Event :=
  ((List.range' e.starting_epoch (e.num_epochs - e.starting_epoch)).foldl
    (evalStep e acc) ((0 : ℚ), ([] : List Event))).2

/-! ## Concrete instances used to evaluate the embedding -/

/-- A concrete spline oracle: the zero function. -/
def spline0 : ℕ → ℕ → List ℚ → ℕ → ℚ := fun _ _ _ _ => 0

/-- A concrete noise vector for one `resample` call: silence. -/
def nfa0 : ℕ → ℚ := fun _ => 0

/-- A concrete noise oracle for the pipeline: silence. -/
def nf0 : ℕ → Bool → ℕ → ℚ := fun _ _ _ => 0

/-- A concrete PESQ oracle: always succeeds with score 1. -/
def pesq0 : List ℚ → List ℚ → Option ℚ := fun _ _ => some 1

/-- A concrete 16-sample high-resolution patch. -/
def x0 : List ℚ := List.replicate 16 1

/-- A concrete prediction oracle: the network always outputs class 0. -/
def predict0 : List ℚ → ℤ := fun _ => 0

/-- A concrete `NetEvaluator`: two samples labelled 0 and 1,
`test_percent = 1/2`, `test_threshold = 1/4`, drawn permutation `[0, 1]`,
so the test portion is index 0 and the train portion is index 1. -/
def c2Eval : NetEvaluator :=
  mkNetEvaluator [([], 0), ([], 1)] (1/2) 1 0 1 5 (1/4) 256 [0, 1]

/-! ## Helper lemmas -/

/-- One scoring step appends its (possibly empty) contribution to both
accumulators. -/
theorem scoreStep_eq_append (pesq : List ℚ → List ℚ → Option ℚ)
    (degs : List Degraded) (acc : List ℚ × List (List ℚ)) (i : ℕ) :
    scoreStep pesq degs acc i =
      (acc.1 ++ (scoreStep pesq degs ([], []) i).1,
       acc.2 ++ (scoreStep pesq degs ([], []) i).2) := by
  unfold scoreStep
  cases pesq ((degs.headD default).audio) ((degs.getD i default).audio) <;> simp

/-- The scoring fold appends its contribution to any starting
accumulator. -/
theorem foldl_scoreStep_eq_append (pesq : List ℚ → List ℚ → Option ℚ)
    (degs : List Degraded) (l : List ℕ) (acc : List ℚ × List (List ℚ)) :
    l.foldl (scoreStep pesq degs) acc =
      (acc.1 ++ (l.foldl (scoreStep pesq degs) ([], [])).1,
       acc.2 ++ (l.foldl (scoreStep pesq degs) ([], [])).2) := by
  induction l generalizing acc with
  | nil => simp
  | cons i l ih =>
    simp only [List.foldl_cons]
    rw [ih (scoreStep pesq degs acc i), ih (scoreStep pesq degs ([], []) i)]
    rw [scoreStep_eq_append pesq degs acc i]
    simp [List.append_assoc]

/-- The scores accumulated by the scoring fold are exactly the successful
PESQ results, quantized by `score2index`, of the visited indices in
order. -/
theorem foldl_scoreStep_fst_eq_filterMap (pesq : List ℚ → List ℚ → Option ℚ)
    (degs : List Degraded) (l : List ℕ) :
    (l.foldl (scoreStep pesq degs) ([], [])).1 =
      l.filterMap (fun i =>
        (pesq ((degs.headD default).audio)
          ((degs.getD i default).audio)).map score2index) := by
  induction l with
  | nil => simp
  | cons i l ih =>
    simp only [List.foldl_cons, List.filterMap_cons]
    rw [foldl_scoreStep_eq_append pesq degs l (scoreStep pesq degs ([], []) i)]
    cases h : pesq ((degs.headD default).audio) ((degs.getD i default).audio) with
    | none => simp only [scoreStep, h]; simpa using ih
    | some s => simp only [scoreStep, h]; simpa using ih

/-- The scoring fold appends equally many scores and patches. -/
theorem foldl_scoreStep_length (pesq : List ℚ → List ℚ → Option ℚ)
    (degs : List Degraded) (l : List ℕ) :
    (l.foldl (scoreStep pesq degs) ([], [])).1.length =
      (l.foldl (scoreStep pesq degs) ([], [])).2.length := by
  induction l with
  | nil => simp
  | cons i l ih =>
    simp only [List.foldl_cons]
    rw [foldl_scoreStep_eq_append pesq degs l (scoreStep pesq degs ([], []) i)]
    cases h : pesq ((degs.headD default).audio) ((degs.getD i default).audio) <;>
      (simp only [scoreStep, h]; simpa using ih)

/-- Processing one patch appends its contribution to the global
accumulators. -/
theorem processPatch_eq_append (pesq : List ℚ → List ℚ → Option ℚ)
    (spline : ℕ → ℕ → List ℚ → ℕ → ℚ) (nf : ℕ → Bool → ℕ → ℚ)
    (acc : List ℚ × List (List ℚ)) (x : List ℚ) :
    processPatch pesq spline nf acc x =
      (acc.1 ++ (processPatch pesq spline nf ([], []) x).1,
       acc.2 ++ (processPatch pesq spline nf ([], []) x).2) := by
  simpa [processPatch, scoreLoop] using
    foldl_scoreStep_eq_append pesq (degradedVersions spline nf x)
      (List.range (degradedVersions spline nf x).length) acc

/-- The patch fold appends the pipeline output to any starting
accumulator. -/
theorem foldl_processPatch_eq_append (pesq : List ℚ → List ℚ → Option ℚ)
    (spline : ℕ → ℕ → List ℚ → ℕ → ℚ) (nf : ℕ → Bool → ℕ → ℚ)
    (ps : List (List ℚ)) (acc : List ℚ × List (List ℚ)) :
    ps.foldl (processPatch pesq spline nf) acc =
      (acc.1 ++ (pipeline pesq spline nf ps).1,
       acc.2 ++ (pipeline pesq spline nf ps).2) := by
  induction ps generalizing acc with
  | nil => simp [pipeline]
  | cons x ps ih =>
    simp only [List.foldl_cons, pipeline]
    rw [ih (processPatch pesq spline nf acc x),
        ih (processPatch pesq spline nf ([], []) x)]
    rw [processPatch_eq_append pesq spline nf acc x]
    simp [List.append_assoc]

/-- The pipeline output is the concatenation, in processing order, of the
contribution of each patch processed from empty accumulators. -/
theorem pipeline_eq_flatMap (pesq : List ℚ → List ℚ → Option ℚ)
    (spline : ℕ → ℕ → List ℚ → ℕ → ℚ) (nf : ℕ → Bool → ℕ → ℚ)
    (ps : List (List ℚ)) :
    pipeline pesq spline nf ps =
      (ps.flatMap (fun x => (processPatch pesq spline nf ([], []) x).1),
       ps.flatMap (fun x => (processPatch pesq spline nf ([], []) x).2)) := by
  induction ps with
  | nil => simp [pipeline]
  | cons x ps ih =>
    have h : pipeline pesq spline nf (x :: ps) =
        ps.foldl (processPatch pesq spline nf)
          (processPatch pesq spline nf ([], []) x) := by
      simp [pipeline]
    rw [h, foldl_processPatch_eq_append, ih]
    simp

/-- The epoch fold appends its events to whatever log the state carries. -/
theorem foldl_evalStep_snd (e : NetEvaluator) (acc : ℕ → ℚ) (l : List ℕ)
    (st : ℚ × List Event) :
    (l.foldl (evalStep e acc) st).2 =
      st.2 ++ (l.foldl (evalStep e acc) (st.1, [])).2 := by
  induction l generalizing st with
  | nil => simp
  | cons a l ih =>
    simp only [List.foldl_cons]
    rw [ih (evalStep e acc st a), ih (evalStep e acc (st.1, []) a)]
    simp [evalStep, List.append_assoc]

/-- The events of one epoch contain its training pass exactly when the
epochs match. -/
theorem trainPass_mem_evalEpoch (e : NetEvaluator) (acc : ℕ → ℚ) (b : ℚ)
    (a ep : ℕ) :
    Event.trainPass ep ∈ (evalEpoch e acc b a).2 ↔ ep = a := by
  by_cases h1 : acc a > b <;>
    by_cases h2 : (a % e.checkpoint_every_epochs = 0 ∨ a = e.num_epochs - 1)
        ∧ a ≠ e.starting_epoch <;>
      simp [evalEpoch, h1, h2]

/-- The events of one epoch contain its evaluation pass exactly when the
epochs match. -/
theorem testPass_mem_evalEpoch (e : NetEvaluator) (acc : ℕ → ℚ) (b : ℚ)
    (a ep : ℕ) :
    Event.testPass ep ∈ (evalEpoch e acc b a).2 ↔ ep = a := by
  by_cases h1 : acc a > b <;>
    by_cases h2 : (a % e.checkpoint_every_epochs = 0 ∨ a = e.num_epochs - 1)
        ∧ a ≠ e.starting_epoch <;>
      simp [evalEpoch, h1, h2]

/-- The events of one epoch contain a checkpoint save exactly when the
epochs match and the saving condition of the source holds. -/
theorem saveCheckpoint_mem_evalEpoch (e : NetEvaluator) (acc : ℕ → ℚ)
    (b : ℚ) (a ep : ℕ) :
    Event.saveCheckpoint ep ∈ (evalEpoch e acc b a).2 ↔
      ep = a ∧ (a % e.checkpoint_every_epochs = 0 ∨ a = e.num_epochs - 1)
        ∧ a ≠ e.starting_epoch := by
  by_cases h1 : acc a > b <;>
    by_cases h2 : (a % e.checkpoint_every_epochs = 0 ∨ a = e.num_epochs - 1)
        ∧ a ≠ e.starting_epoch <;>
      simp [evalEpoch, h1, h2]

/-- Membership of a training pass in the epoch fold. -/
theorem trainPass_mem_foldl (e : NetEvaluator) (acc : ℕ → ℚ) (l : List ℕ)
    (b : ℚ) (ep : ℕ) :
    Event.trainPass ep ∈ (l.foldl (evalStep e acc) (b, [])).2 ↔ ep ∈ l := by
  induction l generalizing b with
  | nil => simp
  | cons a l ih =>
    simp only [List.foldl_cons]
    rw [foldl_evalStep_snd e acc l (evalStep e acc (b, []) a)]
    simp [evalStep, List.mem_append, trainPass_mem_evalEpoch, ih]

/-- Membership of a checkpoint save in the epoch fold. -/
theorem saveCheckpoint_mem_foldl (e : NetEvaluator) (acc : ℕ → ℚ)
    (l : List ℕ) (b : ℚ) (ep : ℕ) :
    Event.saveCheckpoint ep ∈ (l.foldl (evalStep e acc) (b, [])).2 ↔
      ep ∈ l ∧ (ep % e.checkpoint_every_epochs = 0 ∨ ep = e.num_epochs - 1)
        ∧ ep ≠ e.starting_epoch := by
  induction l generalizing b with
  | nil => simp
  | cons a l ih =>
    simp only [List.foldl_cons]
    rw [foldl_evalStep_snd e acc l (evalStep e acc (b, []) a)]
    rw [List.mem_append,
      show (evalStep e acc (b, []) a).2 = (evalEpoch e acc b a).2 from rfl,
      saveCheckpoint_mem_evalEpoch, ih]
    constructor
    · rintro (⟨rfl, hc⟩ | ⟨hm, hc⟩)
      · exact ⟨List.mem_cons_self _ _, hc⟩
      · exact ⟨List.mem_cons_of_mem _ hm, hc⟩
    · rintro ⟨hm, hc⟩
      rcases List.mem_cons.mp hm with rfl | hm2
      · exact Or.inl ⟨rfl, hc⟩
      · exact Or.inr ⟨hm2, hc⟩

/-- The events of one epoch always start with the training pass followed
immediately by the evaluation pass. -/
theorem evalEpoch_events_shape (e : NetEvaluator) (acc : ℕ → ℚ) (b : ℚ)
    (a : ℕ) :
    ∃ rest, (evalEpoch e acc b a).2 =
      Event.trainPass a :: Event.testPass a :: rest :=
  ⟨_, rfl⟩

/-- Any epoch visited by the fold contributes an adjacent
train-then-test pair to the log. -/
theorem train_test_adjacent_foldl (e : NetEvaluator) (acc : ℕ → ℚ)
    (l : List ℕ) (b : ℚ) (ep : ℕ) (h : ep ∈ l) :
    ∃ l1 l2, (l.foldl (evalStep e acc) (b, [])).2 =
      l1 ++ Event.trainPass ep :: Event.testPass ep :: l2 := by
  induction l generalizing b with
  | nil => cases h
  | cons a l ih =>
    simp only [List.foldl_cons]
    rw [foldl_evalStep_snd e acc l (evalStep e acc (b, []) a)]
    rcases List.mem_cons.mp h with rfl | h2
    · obtain ⟨rest, hr⟩ := evalEpoch_events_shape e acc b ep
      refine ⟨[], rest ++
        (l.foldl (evalStep e acc) ((evalStep e acc (b, []) ep).1, [])).2, ?_⟩
      rw [show (evalStep e acc (b, []) ep).2 = (evalEpoch e acc b ep).2 from
        rfl, hr]
      simp
    · obtain ⟨l1, l2, hl⟩ := ih ((evalStep e acc (b, []) a).1) h2
      exact ⟨(evalStep e acc (b, []) a).2 ++ l1, l2, by
        rw [hl]; simp [List.append_assoc]⟩

/-- Each epoch contributes exactly one training pass for itself and none
for other epochs. -/
theorem count_trainPass_evalEpoch (e : NetEvaluator) (acc : ℕ → ℚ) (b : ℚ)
    (a ep : ℕ) :
    ((evalEpoch e acc b a).2).count (Event.trainPass ep) =
      if ep = a then 1 else 0 := by
  by_cases h1 : acc a > b <;>
    by_cases h2 : (a % e.checkpoint_every_epochs = 0 ∨ a = e.num_epochs - 1)
        ∧ a ≠ e.starting_epoch <;>
      by_cases h3 : ep = a <;>
        simp [evalEpoch, h1, h2, h3, List.count_append, List.count_cons]

/-- Each epoch contributes exactly one evaluation pass for itself and none
for other epochs. -/
theorem count_testPass_evalEpoch (e : NetEvaluator) (acc : ℕ → ℚ) (b : ℚ)
    (a ep : ℕ) :
    ((evalEpoch e acc b a).2).count (Event.testPass ep) =
      if ep = a then 1 else 0 := by
  by_cases h1 : acc a > b <;>
    by_cases h2 : (a % e.checkpoint_every_epochs = 0 ∨ a = e.num_epochs - 1)
        ∧ a ≠ e.starting_epoch <;>
      by_cases h3 : ep = a <;>
        simp [evalEpoch, h1, h2, h3, List.count_append, List.count_cons]

/-- Training passes in the epoch fold are counted by the occurrences of
the epoch in the visited list. -/
theorem count_trainPass_foldl (e : NetEvaluator) (acc : ℕ → ℚ) (l : List ℕ)
    (b : ℚ) (ep : ℕ) :
    ((l.foldl (evalStep e acc) (b, [])).2).count (Event.trainPass ep) =
      l.count ep := by
  induction l generalizing b with
  | nil => simp
  | cons a l ih =>
    simp only [List.foldl_cons]
    rw [foldl_evalStep_snd e acc l (evalStep e acc (b, []) a),
      List.count_append,
      show (evalStep e acc (b, []) a).2 = (evalEpoch e acc b a).2 from rfl,
      count_trainPass_evalEpoch, ih, List.count_cons]
    by_cases h3 : ep = a <;> simp [h3] <;> omega

/-- Evaluation passes in the epoch fold are counted by the occurrences of
the epoch in the visited list. -/
theorem count_testPass_foldl (e : NetEvaluator) (acc : ℕ → ℚ) (l : List ℕ)
    (b : ℚ) (ep : ℕ) :
    ((l.foldl (evalStep e acc) (b, [])).2).count (Event.testPass ep) =
      l.count ep := by
  induction l generalizing b with
  | nil => simp
  | cons a l ih =>
    simp only [List.foldl_cons]
    rw [foldl_evalStep_snd e acc l (evalStep e acc (b, []) a),
      List.count_append,
      show (evalStep e acc (b, []) a).2 = (evalEpoch e acc b a).2 from rfl,
      count_testPass_evalEpoch, ih, List.count_cons]
    by_cases h3 : ep = a <;> simp [h3] <;> omega

/-- Membership in the range Python iterates:
`ep ∈ range(s, n)` iff `s ≤ ep < n`. -/
theorem mem_pythonRange (s n ep : ℕ) :
    ep ∈ List.range' s (n - s) ↔ s ≤ ep ∧ ep < n := by
  rw [List.mem_range'_1]
  omega

/-- Length of decimation: one sample per stride. -/
theorem decimate_length (r : ℕ) (x : List ℚ) :
    (decimate r x).length = (x.length + r - 1) / r := by
  simp [decimate]

/-- Length of spline upsampling: one sample per evaluation point. -/
theorem upsample_length (spline : ℕ → ℕ → List ℚ → ℕ → ℚ) (x_lr : List ℚ)
    (d r : ℕ) :
    (upsample spline x_lr d r).length = x_lr.length * r := by
  simp [upsample]

/-- Adding the noise vector preserves the length. -/
theorem addNoise_length (nf : ℕ → ℚ) (xs : List ℚ) :
    (addNoise nf xs).length = xs.length := by
  simp [addNoise]

/-- Ceiling division collapses to exact division on multiples. -/
theorem ceilDiv_of_dvd (r n : ℕ) (hr : 0 < r) (hd : r ∣ n) :
    (n + r - 1) / r = n / r := by
  obtain ⟨k, rfl⟩ := hd
  rcases Nat.eq_zero_or_pos k with rfl | hk
  · rw [Nat.mul_zero, Nat.zero_add, Nat.zero_div]
    exact Nat.div_eq_of_lt (by omega)
  · have h1 : r * k + r - 1 = r * k + (r - 1) := by omega
    rw [h1, Nat.mul_add_div hr, Nat.div_eq_of_lt (by omega),
      Nat.mul_div_cancel_left k hr]
    omega

/-! ## Claims -/

/-- **C1** — the claim says the audio stored at position `j` of the
output dataset `x` is the degraded version whose quantized score is
stored at position `j` of `y`.  Evaluating the code at a concrete input
(one 16-sample patch, every PESQ call succeeding with score 1): the
stored audio at position 1 has 32 samples — it is the concatenation
`np.append(degraded_x[0][1], degraded_x[-1][1])` — while the degraded
version scored at position 1 has 16 samples, so the stored audio is not
that version. -/
theorem c1_stored_patch_is_not_the_scored_version :
    ((pipeline pesq0 spline0 nf0 [x0]).2.getD 1 []).length = 32
    ∧ (((degradedVersions spline0 nf0 x0).getD 1 default).audio).length = 16
    ∧ (pipeline pesq0 spline0 nf0 [x0]).1.getD 1 0 = score2index 1
    ∧ (pipeline pesq0 spline0 nf0 [x0]).2.getD 1 [] ≠
        ((degradedVersions spline0 nf0 x0).getD 1 default).audio := by
  refine ⟨by decide, by decide, rfl, ?_⟩
  intro h
  have h32 : ((pipeline pesq0 spline0 nf0 [x0]).2.getD 1 []).length = 32 := by
    decide
  have h16 :
      (((degradedVersions spline0 nf0 x0).getD 1 default).audio).length = 16 := by
    decide
  rw [h, h16] at h32
  exact absurd h32 (by decide)

/-- **C2** — the claim says `NetEvaluator.test` computes its accuracy
over the held-out test portion.  Evaluating the code at a concrete
evaluator whose test portion is index 0 and train portion index 1:
`test` iterates `self.train_dl`, returns the accuracy over the train
portion (0), and differs from the accuracy over the test portion
(100). -/
theorem c2_test_iterates_train_portion :
    NetEvaluator.test c2Eval predict0 =
        accuracyOver c2Eval predict0 c2Eval.train_dl.idxs
    ∧ c2Eval.train_dl.idxs = [1]
    ∧ c2Eval.test_dl.idxs = [0]
    ∧ NetEvaluator.test c2Eval predict0 = 0
    ∧ accuracyOver c2Eval predict0 c2Eval.test_dl.idxs = 100 := by
  have htrain : c2Eval.train_dl.idxs = [1] := by
    norm_num [c2Eval, mkNetEvaluator, generate_dataloaders]
  have htest : c2Eval.test_dl.idxs = [0] := by
    norm_num [c2Eval, mkNetEvaluator, generate_dataloaders]
  refine ⟨rfl, htrain, htest, ?_, ?_⟩
  · show accuracyOver c2Eval predict0 c2Eval.train_dl.idxs = 0
    rw [htrain]
    norm_num [accuracyOver, c2Eval, mkNetEvaluator, generate_dataloaders,
      predict0]
  · rw [htest]
    norm_num [accuracyOver, c2Eval, mkNetEvaluator, generate_dataloaders,
      predict0]

/-- **C3** — for every high-resolution patch the degradation loop
produces exactly ten degraded versions: for each target sample rate in
`[16000, 8000, 4000, 2000, 1000]`, first one without synthetic noise and
then one with synthetic noise. -/
theorem c3_ten_degraded_versions (spline : ℕ → ℕ → List ℚ → ℕ → ℚ)
    (nf : ℕ → Bool → ℕ → ℚ) (x : List ℚ) :
    (degradedVersions spline nf x).map (fun d => (d.sr, d.noise)) =
      [(16000, false), (16000, true), (8000, false), (8000, true),
       (4000, false), (4000, true), (2000, false), (2000, true),
       (1000, false), (1000, true)]
    ∧ (degradedVersions spline nf x).length = 10 :=
  ⟨rfl, rfl⟩

/-- **C4** — every degraded version is PESQ-scored against
`degraded_x[0]`, the noise-free 16000 Hz version of the same patch, and
the labels accumulated are exactly `score2index(score)` for the
successful scores, where
`score2index(s) = round(s, 1) * (num_classes / 5)` with
`num_classes = 50`. -/
theorem c4_scoring_reference_and_label (pesq : List ℚ → List ℚ → Option ℚ)
    (spline : ℕ → ℕ → List ℚ → ℕ → ℚ) (nf : ℕ → Bool → ℕ → ℚ)
    (x : List ℚ) :
    (processPatch pesq spline nf ([], []) x).1 =
      (List.range 10).filterMap (fun i =>
        (pesq (resampleAudio spline (nf 16000 false) x 16000 16000 false)
          (((degradedVersions spline nf x).getD i default).audio)).map
          score2index)
    ∧ ((degradedVersions spline nf x).headD default).audio =
        resampleAudio spline (nf 16000 false) x 16000 16000 false
    ∧ ∀ s : ℚ, score2index s = pyRound1 s * (50 / 5) :=
  ⟨foldl_scoreStep_fst_eq_filterMap pesq (degradedVersions spline nf x)
      (List.range (degradedVersions spline nf x).length),
   rfl, fun _ => rfl⟩

/-- **C5** — after any sequence of outer-loop iterations (in particular
at the end of the run, when the HDF5 file is written) the number of
stored patches equals the number of stored scores: a failing `get_pesq`
skips both appends. -/
theorem c5_x_y_lengths_agree (pesq : List ℚ → List ℚ → Option ℚ)
    (spline : ℕ → ℕ → List ℚ → ℕ → ℚ) (nf : ℕ → Bool → ℕ → ℚ)
    (ps : List (List ℚ)) :
    (pipeline pesq spline nf ps).1.length =
      (pipeline pesq spline nf ps).2.length := by
  rw [pipeline_eq_flatMap]
  simp only [List.length_flatMap]
  exact congrArg List.sum (List.map_congr_left (fun x _ =>
    foldl_scoreStep_length pesq (degradedVersions spline nf x)
      (List.range (degradedVersions spline nf x).length)))

/-- **C6** — the claim says `index2score(j) = j / (num_classes / 5)` as a
function of its argument and that `index2score (score2index s)` recovers
`round(s, 1)`.  Evaluating the code: the body reads the module-level
global `i` instead of the parameter, so with `i = 9` the call
`index2score(3)` returns `9/10`, not `3/10`, and
`index2score(score2index(0.3))` returns `9/10`, not `0.3`. -/
theorem c6_index2score_ignores_argument :
    index2score 9 3 = 9 / 10
    ∧ index2score 9 3 ≠ 3 / (num_classes / 5)
    ∧ index2score 9 (score2index (3/10)) ≠ pyRound1 (3/10) := by
  refine ⟨?_, ?_, ?_⟩ <;>
    norm_num [index2score, num_classes, score2index, pyRound1, roundHalfEven]

/-- **C7** — when `new_sr` divides 16000 and `r = 16000 / new_sr` divides
the patch length, `resample` returns a signal with exactly as many
samples as its input: decimation yields `len/r` samples and spline
upsampling multiplies by `r`; the optional noise addition preserves the
length. -/
theorem c7_resample_preserves_length (spline : ℕ → ℕ → List ℚ → ℕ → ℚ)
    (nf : ℕ → ℚ) (x : List ℚ) (new_sr : ℕ) (noise : Bool)
    (h1 : 0 < new_sr) (h2 : new_sr ∣ 16000)
    (h3 : 16000 / new_sr ∣ x.length) :
    (resampleAudio spline nf x 16000 new_sr noise).length = x.length := by
  have hr : 0 < 16000 / new_sr :=
    Nat.div_pos (Nat.le_of_dvd (by norm_num) h2) h1
  unfold resampleAudio
  cases noise <;>
    simp [addNoise_length, upsample_length, decimate_length,
      ceilDiv_of_dvd _ _ hr h3, Nat.div_mul_cancel h3]

/-- Witness for **C7** at `new_sr = 8000` on the 16-sample patch `x0`. -/
theorem c7_resample_preserves_length_witness :
    0 < 8000 ∧ (8000 : ℕ) ∣ 16000 ∧ 16000 / 8000 ∣ x0.length
    ∧ (resampleAudio spline0 nfa0 x0 16000 8000 true).length = x0.length :=
  ⟨by decide, ⟨2, by norm_num⟩, ⟨8, by decide⟩,
   c7_resample_preserves_length spline0 nfa0 x0 8000 true (by decide)
     ⟨2, by norm_num⟩ ⟨8, by decide⟩⟩

/-- **C8** — the executed pipeline is strictly sequential: running the
patches `ps ++ qs` is running `ps` and then folding `qs` one patch at a
time from the reached state, and the output is the in-order concatenation
of per-patch contributions, each patch processed on its own.  (That the
`multiprocessing.Pool` import is used only inside commented-out code is a
fact of the source text; this theorem renders the semantics of the code
that actually runs.) -/
theorem c8_pipeline_sequential (pesq : List ℚ → List ℚ → Option ℚ)
    (spline : ℕ → ℕ → List ℚ → ℕ → ℚ) (nf : ℕ → Bool → ℕ → ℚ)
    (ps qs : List (List ℚ)) :
    pipeline pesq spline nf (ps ++ qs) =
      qs.foldl (processPatch pesq spline nf) (pipeline pesq spline nf ps)
    ∧ (pipeline pesq spline nf ps).1 =
        ps.flatMap (fun x => (processPatch pesq spline nf ([], []) x).1)
    ∧ (pipeline pesq spline nf ps).2 =
        ps.flatMap (fun x => (processPatch pesq spline nf ([], []) x).2) := by
  refine ⟨?_, ?_, ?_⟩
  · simp [pipeline, List.foldl_append]
  · rw [pipeline_eq_flatMap]
  · rw [pipeline_eq_flatMap]

/-- **C9** — whatever `batch_size` is passed to the constructor, the
object stores `batch_size = 512`, both dataloaders are built with batch
size 512, and the constructed object does not depend on the argument at
all. -/
theorem c9_batch_size_fixed_512 (dataset : List (List ℚ × ℤ))
    (tp lr : ℚ) (se ne cke : ℕ) (tt : ℚ) (bs bs2 : ℕ) (perm : List ℕ) :
    (mkNetEvaluator dataset tp lr se ne cke tt bs perm).batch_size = 512
    ∧ (mkNetEvaluator dataset tp lr se ne cke tt bs perm).train_dl.batch_size
        = 512
    ∧ (mkNetEvaluator dataset tp lr se ne cke tt bs perm).test_dl.batch_size
        = 512
    ∧ mkNetEvaluator dataset tp lr se ne cke tt bs perm =
        mkNetEvaluator dataset tp lr se ne cke tt bs2 perm :=
  ⟨rfl, rfl, rfl, rfl⟩

/-- **C10** — `eval` runs, for each epoch in
`range(starting_epoch, num_epochs)`, exactly one training pass followed
immediately by one evaluation pass, and a checkpoint file is saved for an
epoch exactly when `(epoch % checkpoint_every_epochs == 0 or
epoch == num_epochs - 1) and epoch != starting_epoch` while the epoch is
in that range. -/
theorem c10_epoch_loop_and_checkpoints (e : NetEvaluator) (acc : ℕ → ℚ)
    (ep : ℕ) :
    ((∃ l1 l2, evalTrace e acc =
        l1 ++ Event.trainPass ep :: Event.testPass ep :: l2) ↔
      e.starting_epoch ≤ ep ∧ ep < e.num_epochs)
    ∧ ((evalTrace e acc).count (Event.trainPass ep) =
        if e.starting_epoch ≤ ep ∧ ep < e.num_epochs then 1 else 0)
    ∧ ((evalTrace e acc).count (Event.testPass ep) =
        if e.starting_epoch ≤ ep ∧ ep < e.num_epochs then 1 else 0)
    ∧ (Event.saveCheckpoint ep ∈ evalTrace e acc ↔
        e.starting_epoch ≤ ep ∧ ep < e.num_epochs ∧
          (ep % e.checkpoint_every_epochs = 0 ∨ ep = e.num_epochs - 1) ∧
          ep ≠ e.starting_epoch) := by
  have hmem := mem_pythonRange e.starting_epoch e.num_epochs ep
  refine ⟨⟨?_, ?_⟩, ?_, ?_, ?_⟩
  · rintro ⟨l1, l2, hl⟩
    have hm : Event.trainPass ep ∈ evalTrace e acc := by
      rw [hl]; simp
    simp only [evalTrace] at hm
    rw [trainPass_mem_foldl] at hm
    exact hmem.mp hm
  · intro h
    simp only [evalTrace]
    exact train_test_adjacent_foldl e acc _ 0 ep (hmem.mpr h)
  · simp only [evalTrace]
    rw [count_trainPass_foldl]
    by_cases h : e.starting_epoch ≤ ep ∧ ep < e.num_epochs
    · rw [if_pos h]
      exact List.count_eq_one_of_mem (List.nodup_range' _ _) (hmem.mpr h)
    · rw [if_neg h]
      exact List.count_eq_zero_of_not_mem (fun hc => h (hmem.mp hc))
  · simp only [evalTrace]
    rw [count_testPass_foldl]
    by_cases h : e.starting_epoch ≤ ep ∧ ep < e.num_epochs
    · rw [if_pos h]
      exact List.count_eq_one_of_mem (List.nodup_range' _ _) (hmem.mpr h)
    · rw [if_neg h]
      exact List.count_eq_zero_of_not_mem (fun hc => h (hmem.mp hc))
  · simp only [evalTrace]
    rw [saveCheckpoint_mem_foldl, hmem]
    tauto

end AudioClassifier
